import Mathlib

/-!
Verification of the dynamic request-routing and release-traffic-shaping engine
of an nginx ingress controller.

Control plane (Go): `internal/ingress/annotations/canary/serviceweight.go`,
`internal/ingress/controller/util.go`, `internal/ingress/controller/controller_ext.go`.
Data plane (Lua): `rootfs/etc/nginx/lua/balancer.lua`.

Go strings of the claims are ASCII, so strings are modelled through their
character lists; Go byte indices coincide with character indices on them.
External collaborators (PCRE regex matching via `ngx.re.match`, the MD5 digest
of `resty.md5`, DNS lookup, and the `math.random(100)` draw) are passed as
explicit parameters to the functions that consult them.
-/

namespace IngressNginx

/-! ### Association-list primitives

Lua tables and Go maps keyed by strings are modelled as association lists with
distinct keys; insertion updates an existing key in place, and the list order
stands for the iteration order. -/

def lookupK {β : Type} : List (String × β) → String → Option β
  | [], _ => none
  | (k', v) :: t, k => if k' = k then some v else lookupK t k

def upsertK {β : Type} : List (String × β) → String → β → List (String × β)
  | [], k, v => [(k, v)]
  | (k', v') :: t, k, v =>
    if k' = k then (k, v) :: t else (k', v') :: upsertK t k v

def eraseK {β : Type} (l : List (String × β)) (k : String) : List (String × β) :=
  l.filter (fun p => p.1 != k)

/-! ### Go string primitives (`strings`, `strconv`) -/

/-- `strings.Split` with a one-character separator (the sources only split on
`","` and `":"`). -/
def splitOnChar (sep : Char) : List Char → List (List Char)
  | [] => [[]]
  | c :: rest =>
    let r := splitOnChar sep rest
    if c = sep then [] :: r
    else
      match r with
      | h :: t => (c :: h) :: t
      | [] => [[c]]

/-- The whitespace class of `unicode.IsSpace` restricted to Latin-1 (the only
space characters reachable from the claims' ASCII annotation strings). -/
def goIsSpace (c : Char) : Bool :=
  c = ' ' || c = '\t' || c = '\n' || c = '\x0b' || c = '\x0c' || c = '\r' ||
  c = '\x85' || c = '\xa0'

/-- `strings.TrimSpace`. -/
def goTrimSpace (l : List Char) : List Char :=
  ((l.dropWhile goIsSpace).reverse.dropWhile goIsSpace).reverse

def digitsVal (l : List Char) : Nat :=
  l.foldl (fun a c => a * 10 + (c.toNat - '0'.toNat)) 0

/-- `strconv.Atoi`: an optional sign followed by a non-empty run of digits. -/
def goAtoi (s : List Char) : Option Int :=
  let (sign, ds) : Int × List Char :=
    match s with
    | '-' :: rest => (-1, rest)
    | '+' :: rest => (1, rest)
    | _ => (1, s)
  if ds.isEmpty then none
  else if ds.all Char.isDigit then some (sign * (digitsVal ds : Int))
  else none

/-- `strings.TrimLeft`: removes the maximal leading run of characters drawn
from the cutset. (It does NOT remove a prefix string.) -/
def goTrimLeftCutset (s cutset : String) : String :=
  ⟨s.data.dropWhile (fun c => decide (c ∈ cutset.data))⟩

/-- Index of the last occurrence of `c`, as `strings.LastIndex` (which returns
-1, modelled as `none`, when absent). -/
def lastIdxOf (c : Char) : List Char → Option Nat
  | [] => none
  | x :: xs =>
    match lastIdxOf c xs with
    | some i => some (i + 1)
    | none => if x = c then some 0 else none

/-! ### `internal/ingress/controller/util.go` -/

/-- `upstreamName`: `fmt.Sprintf("%v-%v-%v", namespace, service, port.String())`. -/
def upstreamName (namespc service port : String) : String :=
  namespc ++ "-" ++ service ++ "-" ++ port

/-- `splitUpstreamName`. `str[1:idx]` and `str[idx+1:]` are Go slices; for the
round-trip inputs of the claims `idx ≥ 1`, where the slices are the modelled
`take`/`drop`. -/
def splitUpstreamName (upstream namespc : String) : String × String :=
  let str := goTrimLeftCutset upstream namespc
  match lastIdxOf '-' str.data with
  | none => ("", "")
  | some idx => (⟨(str.data.drop 1).take (idx - 1)⟩, ⟨str.data.drop (idx + 1)⟩)

/-! ### `internal/ingress/annotations/canary/serviceweight.go` -/

structure ServiceWeightConfig where
  serviceWeightEnabled : Bool
  serviceWeightCfgMap : List (String × Int)
deriving DecidableEq, Repr

/-- A Go `(value, error)` return: `err` carries the invalid-annotation error. -/
inductive GoResult (α : Type) where
  | err : String → GoResult α
  | ok : α → GoResult α
deriving DecidableEq, Repr

/-- The entry loop of `parseServiceWeight`: split each `key:value` pair,
reject a malformed pair or an empty trimmed key or a non-integer value, and
collect the weights into the map. -/
def parseWeightEntries : List (List Char) → List (String × Int) →
    Option (List (String × Int))
  | [], acc => some acc
  | cfg :: rest, acc =>
    match splitOnChar ':' cfg with
    | [k, v] =>
      if (goTrimSpace k).isEmpty then none
      else
        match goAtoi (goTrimSpace v) with
        | none => none
        | some w => parseWeightEntries rest (upsertK acc ⟨goTrimSpace k⟩ w)
    | _ => none

/-- The weights map parsed from the raw `service-weight` annotation string;
`none` is the invalid-annotation error. -/
def parseWeights (serviceWeight : String) : Option (List (String × Int)) :=
  parseWeightEntries (splitOnChar ',' serviceWeight.data) []

/-- Go's `/` on `int` (truncated division). -/
def goDiv (a b : Int) : Int := Int.tdiv a b

/-- `parseServiceWeight` on the annotation string: `.ok none` is the
`(nil, nil)` return, `.err` the invalid-annotation error. Go iterates the
weights map with `for service, weight := range weights`, whose order is
randomized; that enumeration is passed explicitly as `mapRange` (a genuine run
enumerates exactly the map's entries, i.e. a permutation of them), and the
multi-entry branch keeps the first two entries of this unspecified order. The
single-entry loop breaks after the map's only entry, so it reads the map
directly. -/
def parseServiceWeight (mapRange : List (String × Int) → List (String × Int))
    (serviceWeight : String) : GoResult (Option ServiceWeightConfig) :=
  if serviceWeight.length = 0 then .ok none
  else
    match parseWeights serviceWeight with
    | none => .err serviceWeight
    | some weights =>
      if weights.length = 0 then .ok none
      else
        let config :=
          if weights.length = 1 then
            weights.map (fun p => (p.1, goDiv (100 * p.2) (100 + p.2)))
          else
            let services := (mapRange weights).take 2
            let totalWeight := (services.map Prod.snd).sum
            services.map (fun p => (p.1, goDiv (100 * p.2) totalWeight))
        .ok (some { serviceWeightEnabled := decide (0 < config.length),
                    serviceWeightCfgMap := config })

/-- Sum of the percents of a parsed service-weight configuration. -/
def sumPercents (config : ServiceWeightConfig) : Int :=
  (config.serviceWeightCfgMap.map Prod.snd).sum

/-- The divisors `parseServiceWeight` divides by after the entry loop, taking
the parsed entries in iteration order: `100+w` when a single entry parsed, the
total of the first two iterated weights otherwise. -/
def weightDivisors (weights : List (String × Int)) : List Int :=
  if weights.length = 1 then weights.map (fun p => 100 + p.2)
  else [((weights.take 2).map Prod.snd).sum]

/-! ### Data model of the published backend table (`balancer.lua`)

JSON fields that may be absent are `Option`; the Lua code tests them for
truthiness (`nil`/`false` falsy, everything else truthy). -/

structure MatchRule where
  ticket : String
  pattern : String
  key : String
  value : String
deriving DecidableEq, Repr

structure TrafficShapingPolicy where
  hostPath : Option String := none
  serviceWeight : Option (List (String × Int)) := none
  serviceMatch : Option (List (String × MatchRule)) := none
deriving DecidableEq, Repr

structure SessionAffinityConfig where
  name : Option String := none
  mode : Option String := none
deriving DecidableEq, Repr

structure UpstreamHashByConfig where
  upstreamHashBy : Option String := none
  upstreamHashBySubset : Option Bool := none
deriving DecidableEq, Repr

structure Endpoint where
  address : String
  port : String
deriving DecidableEq, Repr

structure Backend where
  name : String
  endpoints : List Endpoint := []
  loadBalance : Option String := none
  sessionAffinityConfig : Option SessionAffinityConfig := none
  upstreamHashByConfig : Option UpstreamHashByConfig := none
  alternativeBackends : Option (List String) := none
  trafficShapingPolicy : Option TrafficShapingPolicy := none
  serviceType : Option String := none
deriving DecidableEq, Repr

/-! ### `get_implementation` -/

def DEFAULT_LB_ALG : String := "round_robin"

def IMPLEMENTATIONS : List String :=
  ["round_robin", "chash", "chashsubset", "sticky_balanced",
   "sticky_persistent", "ewma"]

def sessionAffinityIsCookie (b : Backend) : Bool :=
  match b.sessionAffinityConfig with
  | some sac => sac.name = some "cookie"
  | none => false

def affinityModePersistent (b : Backend) : Bool :=
  match b.sessionAffinityConfig with
  | some sac => sac.mode = some "persistent"
  | none => false

def hashByConfigured (b : Backend) : Bool :=
  match b.upstreamHashByConfig with
  | some c => c.upstreamHashBy.isSome
  | none => false

def hashBySubsetTruthy (b : Backend) : Bool :=
  match b.upstreamHashByConfig with
  | some c => c.upstreamHashBySubset = some true
  | none => false

/-- `get_implementation`, returning the name of the chosen implementation
module. -/
def get_implementation (b : Backend) : String :=
  let name := b.loadBalance.getD DEFAULT_LB_ALG
  let name :=
    if sessionAffinityIsCookie b then
      if affinityModePersistent b then "sticky_persistent" else "sticky_balanced"
    else if hashByConfigured b then
      if hashBySubsetTruthy b then "chashsubset" else "chash"
    else name
  if IMPLEMENTATIONS.contains name then name else DEFAULT_LB_ALG

/-! ### Balancer instances and the per-worker registry

Modelled from the spec: the implementation modules (`balancer.round_robin`
and friends) are not among the provided sources. Per spec 4.E an instance's
prototype identity is its implementation (modelled by name), `new(backend)`
captures the backend, and the in-place `sync(backend)` hook updates that state
without replacing the instance. `route_to_alternative_release_balancer` reads
`alternative_backends` and `traffic_shaping_policy` off the instance, which
`new` copies from the backend. -/

structure Balancer where
  implName : String
  backend : Backend
deriving DecidableEq, Repr

def Balancer.alternative_backends (b : Balancer) : Option (List String) :=
  b.backend.alternativeBackends

def Balancer.traffic_shaping_policy (b : Balancer) : Option TrafficShapingPolicy :=
  b.backend.trafficShapingPolicy

abbrev Balancers := List (String × Balancer)

/-! ### The request and its nginx variables

`ngx.var` is one table: request headers appear as `http_<name>`, request
cookies as `cookie_<name>`, query parameters as `arg_<name>`; `resty.cookie`'s
`get` reads the same request cookies, modelled as the `cookie_` variables. -/

structure Request where
  vars : List (String × String)
deriving DecidableEq, Repr

def Request.var (req : Request) (name : String) : Option String :=
  lookupK req.vars name

def Request.cookieGet (req : Request) (name : String) : Option String :=
  req.var ("cookie_" ++ name)

/-- `util.replace_special_char(key, "-", "_")` (util.lua is not among the
provided sources). Modelled from the spec: the selector maps a header key to
its proxy variable name, replacing every "-" with "_". -/
def replace_special_char (s : String) : String :=
  ⟨s.data.map (fun c => if c = '-' then '_' else c)⟩

/-! ### `route_to_alternative_release_balancer` and its helpers -/

/-- `shuffle_alternative_release_balancer`: the first of the two names whose
balancer is present in the registry (the decision is the name; the returned
instance is the registry entry of that name). -/
def shuffle_alternative_release_balancer (balancers : Balancers)
    (primary alternative : String) : Option String :=
  if (lookupK balancers primary).isSome then some primary
  else if (lookupK balancers alternative).isSome then some alternative
  else none

/-- `alternative_weight_enabled`. -/
def weightEnabledOf (tsp : TrafficShapingPolicy) : Bool :=
  tsp.serviceWeight.isSome

/-- `alternative_weight_percent` (−1 when the policy names neither sibling). -/
def weightPercentOf (tsp : TrafficShapingPolicy)
    (alternative current : String) : Int :=
  match tsp.serviceWeight with
  | none => -1
  | some sw =>
    match lookupK sw alternative with
    | some w => w
    | none =>
      match lookupK sw current with
      | some w => 100 - w
      | none => -1

/-- `alternative_match_enabled`. -/
def matchEnabledOf (tsp : TrafficShapingPolicy) : Bool :=
  tsp.serviceMatch.isSome

/-- `alternative_match_config`. -/
def altMatchCfg (tsp : TrafficShapingPolicy) (alternative : String) :
    Option MatchRule :=
  match tsp.serviceMatch with
  | some sm => lookupK sm alternative
  | none => none

/-- `current_match_config` (only set when the alternative has no rule). -/
def curMatchCfg (tsp : TrafficShapingPolicy) (alternative current : String) :
    Option MatchRule :=
  match tsp.serviceMatch with
  | some sm =>
    match lookupK sm alternative with
    | some _ => none
    | none => lookupK sm current
  | none => none

/-- The request value extracted by the rule's ticket; a missing value yields
the empty string. -/
def extractRequestValue (req : Request) (mc : MatchRule) : String :=
  let rv :=
    if mc.ticket = "header" then
      req.var ("http_" ++ replace_special_char mc.key)
    else if mc.ticket = "cookie" then req.var ("cookie_" ++ mc.key)
    else if mc.ticket = "query" then req.var ("arg_" ++ mc.key)
    else none
  rv.getD ""

/-- `match_success`: exact comparison, or the regex oracle; any other pattern
stays false. -/
def matchSuccess (re_match : String → String → Bool) (req : Request)
    (mc : MatchRule) : Bool :=
  if mc.pattern = "exact" then extractRequestValue req mc = mc.value
  else if mc.pattern = "regex" then re_match (extractRequestValue req mc) mc.value
  else false

/-- The sticky release cookie's value: the request cookie named by the MD5 hex
digest of the policy's `hostPath`, when both exist. -/
def stickyCookieValue (md5 : String → String) (req : Request)
    (tsp : TrafficShapingPolicy) : Option String :=
  match tsp.hostPath with
  | some hp => req.cookieGet (md5 hp)
  | none => none

/-- The final service-weight section: `rand` is the `math.random(100)` draw
(1..100). When the draw keeps the current backend the code returns the
balancer instance it was handed, so the decision is `some current`. -/
def weightEval (balancers : Balancers) (rand : Int) (enabled : Bool)
    (percent : Int) (current alternative : String) : Option String :=
  if enabled then
    if percent ≤ 0 then
      shuffle_alternative_release_balancer balancers current alternative
    else if 100 ≤ percent then
      shuffle_alternative_release_balancer balancers alternative current
    else if rand ≤ percent then
      shuffle_alternative_release_balancer balancers alternative current
    else some current
  else none

/-- `route_to_alternative_release_balancer`: the release selector. The result
is the name of the chosen backend (the returned instance is that name's
registry entry); `none` is the `nil, nil` return. Setting the sticky cookie on
the response is a side effect outside the routing decision. In the branch
where `service_match` is enabled but names neither sibling the source indexes
a nil `match_config` and the Lua error aborts with no decision. -/
def route_to_alternative_release_balancer (re_match : String → String → Bool)
    (md5 : String → String) (rand : Int) (balancers : Balancers)
    (req : Request) (balancer : Balancer) (current_backend_name : String) :
    Option String :=
  match balancer.alternative_backends with
  | none => none
  | some alternative_backends =>
    match alternative_backends.head? with
    | none => none
    | some alternative_backend =>
      match balancer.traffic_shaping_policy with
      | none => none
      | some tsp =>
        match stickyCookieValue md5 req tsp with
        | some target_backend_name =>
          if target_backend_name = current_backend_name then
            shuffle_alternative_release_balancer balancers
              current_backend_name alternative_backend
          else if target_backend_name = alternative_backend then
            shuffle_alternative_release_balancer balancers
              alternative_backend current_backend_name
          else none
        | none =>
          if matchEnabledOf tsp then
            match altMatchCfg tsp alternative_backend,
                  curMatchCfg tsp alternative_backend current_backend_name with
            | some mc, _ =>
              if matchSuccess re_match req mc = false then
                shuffle_alternative_release_balancer balancers
                  current_backend_name alternative_backend
              else if weightEnabledOf tsp = false then
                shuffle_alternative_release_balancer balancers
                  alternative_backend current_backend_name
              else
                weightEval balancers rand (weightEnabledOf tsp)
                  (weightPercentOf tsp alternative_backend current_backend_name)
                  current_backend_name alternative_backend
            | none, some mc =>
              if matchSuccess re_match req mc = false then
                shuffle_alternative_release_balancer balancers
                  alternative_backend current_backend_name
              else if weightEnabledOf tsp = false then
                shuffle_alternative_release_balancer balancers
                  current_backend_name alternative_backend
              else
                weightEval balancers rand (weightEnabledOf tsp)
                  (weightPercentOf tsp alternative_backend current_backend_name)
                  current_backend_name alternative_backend
            | none, none => none
          else
            weightEval balancers rand (weightEnabledOf tsp)
              (weightPercentOf tsp alternative_backend current_backend_name)
              current_backend_name alternative_backend

/-! ### Location selection of `handle_server_request`

The per-server location table is keyed by path; `pairs` iterates it in an
order the Lua reference leaves unspecified, modelled by the list order. The
match against `path` is the `ngx.re.match` oracle. -/

structure Location where
  path : String
  backend : Option String := none
deriving DecidableEq, Repr

/-- One iteration of the longest-matching-path loop of
`handle_server_request`: a location whose path matches replaces the incumbent
when its path length is greater *or equal*
(`string.len(path) >= target_location_priority`). -/
def selStep (pathMatches : Location → Bool) (acc : Option Location × Nat)
    (location : Location) : Option Location × Nat :=
  if pathMatches location then
    if acc.2 ≤ location.path.length then (some location, location.path.length)
    else acc
  else acc

/-- The location selection of `handle_server_request`: the priority starts at
0 and every location of the server's table is folded through `selStep`. -/
def select_location (re_match : String → String → Bool) (request_uri : String)
    (locations : List Location) : Option Location :=
  (locations.foldl (selStep fun l => re_match request_uri l.path)
    ((none : Option Location), 0)).1

/-- A step of the spec-side selection: keep the later location on an
equal-or-greater path length. -/
def specStep (acc : Option Location) (l : Location) : Option Location :=
  match acc with
  | none => some l
  | some m => if m.path.length ≤ l.path.length then some l else acc

/-- Second definition, following the amended spec words rather than the
source: among the locations whose path matches the request URI, pick one with
the greatest path length, a later location winning a tie. -/
def specLastLongestMatch (re_match : String → String → Bool)
    (request_uri : String) (locations : List Location) : Option Location :=
  (locations.filter (fun l => re_match request_uri l.path)).foldl specStep none

/-! ### Reconciliation: `sync_backend`, `sync_backends`, `sync_servers` -/

/-- What the worker's poll of the publisher produced: no data for the table, a
body that fails to JSON-decode, or the decoded table. -/
inductive FetchResult (α : Type) where
  | noData : FetchResult α
  | decodeError : FetchResult α
  | ok : α → FetchResult α
deriving DecidableEq, Repr

def is_backend_with_external_name (backend : Backend) : Bool :=
  backend.serviceType = some "ExternalName"

/-- `resolve_external_names`: one endpoint per IP of the injected DNS lookup. -/
def resolve_external_names (dns : String → List String) (backend : Backend) :
    Backend :=
  { backend with
    endpoints := backend.endpoints.foldl
      (fun acc e => acc ++ (dns e.address).map fun ip => Endpoint.mk ip e.port)
      [] }

def digitsRun1 (l : List Char) : Bool := !l.isEmpty && l.all Char.isDigit

/-- The anchored Lua pattern of n groups `%d+` separated by single `.`
(unescaped: any character), as in `^%d+.%d+.%d+.%d+$`. -/
def luaDigitGroups : Nat → List Char → Bool
  | 0, _ => false
  | 1, l => digitsRun1 l
  | n + 2, l =>
    (List.range l.length).any fun k =>
      digitsRun1 (l.take (k + 1)) && decide (k + 2 ≤ l.length) &&
        luaDigitGroups (n + 1) (l.drop (k + 2))

/-- `format_ipv6_endpoints`: bracket every address that does not match the
dotted-quad shape `^%d+.%d+.%d+.%d+$`. -/
def format_ipv6_endpoints (endpoints : List Endpoint) : List Endpoint :=
  endpoints.map fun e =>
    if luaDigitGroups 4 e.address.data then e
    else { e with address := "[" ++ e.address ++ "]" }

/-- `sync_backend` acting on the balancer registry. -/
def sync_backend (dns : String → List String) (balancers : Balancers)
    (backend : Backend) : Balancers :=
  if backend.endpoints.isEmpty then eraseK balancers backend.name
  else
    let backend :=
      if is_backend_with_external_name backend then
        resolve_external_names dns backend
      else backend
    let backend := { backend with endpoints := format_ipv6_endpoints backend.endpoints }
    let implementation := get_implementation backend
    match lookupK balancers backend.name with
    | none => upsertK balancers backend.name (Balancer.mk implementation backend)
    | some balancer =>
      if balancer.implName ≠ implementation then
        upsertK balancers backend.name (Balancer.mk implementation backend)
      else
        upsertK balancers backend.name { balancer with backend := backend }

/-- The worker state touched by `sync_backends` (module-level upvalues). -/
structure WorkerState where
  balancers : Balancers
  backends_with_external_name : List (String × Backend) := []
  alternative_backends : List (String × List String) := []
  backends_last_synced_at : Int := 0
deriving DecidableEq, Repr

def BACKENDS_FORCE_SYNC_INTERVAL : Int := 30

/-- One iteration of the loop over the decoded backends, also threading the
`balancers_to_keep` names. -/
def sync_backends_step (dns : String → List String)
    (acc : WorkerState × List String) (new_backend : Backend) :
    WorkerState × List String :=
  let s := acc.1
  let s :=
    if is_backend_with_external_name new_backend then
      { s with backends_with_external_name :=
          upsertK s.backends_with_external_name new_backend.name new_backend }
    else
      let s := { s with balancers := sync_backend dns s.balancers new_backend }
      match new_backend.alternativeBackends with
      | some alts =>
        { s with alternative_backends :=
            upsertK s.alternative_backends new_backend.name alts }
      | none =>
        { s with alternative_backends :=
            eraseK s.alternative_backends new_backend.name }
  let keep :=
    if !new_backend.endpoints.isEmpty then new_backend.name :: acc.2 else acc.2
  (s, keep)

/-- `sync_backends`. The guard skips the sync when neither the force interval
has elapsed nor the publisher's raw timestamp advanced; absent data drops the
balancers and alternative-backend state; a decode error keeps the snapshot;
otherwise every decoded backend is processed and the balancers whose names
were not seen with a non-empty endpoint list are pruned (together with their
external-name and alternative-backend entries). -/
def sync_backends (dns : String → List String)
    (current_timestamp raw_backends_last_synced_at : Int)
    (fetch : FetchResult (List Backend)) (st : WorkerState) : WorkerState :=
  if current_timestamp - st.backends_last_synced_at < BACKENDS_FORCE_SYNC_INTERVAL
      ∧ raw_backends_last_synced_at ≤ st.backends_last_synced_at then st
  else
    match fetch with
    | .noData => { st with balancers := [], alternative_backends := [] }
    | .decodeError => st
    | .ok new_backends =>
      let s := new_backends.foldl (sync_backends_step dns) (st, [])
      let keep := s.2
      let removed := s.1.balancers.filterMap fun p =>
        if keep.contains p.1 then none else some p.1
      { balancers := s.1.balancers.filter (fun p => keep.contains p.1),
        backends_with_external_name :=
          s.1.backends_with_external_name.filter (fun p => !removed.contains p.1),
        alternative_backends :=
          s.1.alternative_backends.filter (fun p => !removed.contains p.1),
        backends_last_synced_at := raw_backends_last_synced_at }

/-! ### `sync_server` / `sync_servers` -/

structure Server where
  hostname : String
  aliases : Option (List String) := none
  locations : List Location := []
deriving DecidableEq, Repr

structure ServerConf where
  hostname : String
  aliases : Option (List String)
  locations : List (String × Location)
deriving DecidableEq, Repr

/-- `sync_server`: the per-server conf, locations re-keyed by path. -/
def sync_server (server : Server) : ServerConf :=
  { hostname := server.hostname,
    aliases := server.aliases,
    locations := server.locations.foldl
      (fun acc location => upsertK acc location.path location) [] }

/-- `sync_servers`: absent data drops all servers; a decode error keeps the
snapshot; otherwise every decoded server (and each alias) is written and the
names not seen this round are pruned. -/
def sync_servers (fetch : FetchResult (List Server))
    (servers : List (String × ServerConf)) : List (String × ServerConf) :=
  match fetch with
  | .noData => []
  | .decodeError => servers
  | .ok new_servers =>
    let s := new_servers.foldl
      (fun (acc : List (String × ServerConf) × List String) new_server =>
        let conf := sync_server new_server
        let acc1 := (upsertK acc.1 new_server.hostname conf,
                     new_server.hostname :: acc.2)
        match new_server.aliases with
        | some als =>
          als.foldl (fun acc2 al => (upsertK acc2.1 al conf, al :: acc2.2)) acc1
        | none => acc1)
      (servers, [])
    s.1.filter (fun p => s.2.contains p.1)

/-! ### Concrete release fixtures

A two-pool release group: primary pool "cur" linked to sibling "alt", both
with live balancers, used by the witnesses and counterexamples below. -/

def altBalancerFx : Balancer := ⟨"round_robin", { name := "alt" }⟩

def matchPolicyFx : TrafficShapingPolicy :=
  { serviceWeight := some [("alt", 0)],
    serviceMatch := some [("alt", ⟨"header", "exact", "Foo", "bar"⟩)] }

def matchBalancerFx : Balancer :=
  ⟨"round_robin",
   { name := "cur", alternativeBackends := some ["alt"],
     trafficShapingPolicy := some matchPolicyFx }⟩

def matchRegistryFx : Balancers := [("cur", matchBalancerFx), ("alt", altBalancerFx)]

def stickyPolicyFx : TrafficShapingPolicy :=
  { hostPath := some "release.example/", serviceWeight := some [("alt", 100)] }

def stickyBalancerFx : Balancer :=
  ⟨"round_robin",
   { name := "cur", alternativeBackends := some ["alt"],
     trafficShapingPolicy := some stickyPolicyFx }⟩

def stickyRegistryFx : Balancers := [("cur", stickyBalancerFx), ("alt", altBalancerFx)]

/-! ## Shared lemmas -/

theorem lookupK_eraseK {β : Type} (l : List (String × β)) (k : String) :
    lookupK (eraseK l k) k = none := by
  induction l with
  | nil => rfl
  | cons p t ih =>
    by_cases h : p.1 = k
    · simpa [eraseK, List.filter_cons, h] using ih
    · simpa [eraseK, List.filter_cons, h, lookupK] using ih

theorem lastIdxOf_eq_none {c : Char} {l : List Char} (h : c ∉ l) :
    lastIdxOf c l = none := by
  induction l with
  | nil => rfl
  | cons x xs ih =>
    have hx : ¬(x = c) := by rintro rfl; exact h (List.mem_cons_self _ _)
    have hxs : c ∉ xs := fun hm => h (List.mem_cons_of_mem _ hm)
    simp [lastIdxOf, ih hxs, hx]

theorem lastIdxOf_append_cons {c : Char} (xs : List Char) {p : List Char}
    (hp : c ∉ p) : lastIdxOf c (xs ++ c :: p) = some xs.length := by
  induction xs with
  | nil => simp [lastIdxOf, lastIdxOf_eq_none hp]
  | cons x t ih => simp [lastIdxOf, ih]

theorem string_data_append (a b : String) : (a ++ b).data = a.data ++ b.data := rfl

theorem upstreamName_data (ns svc port : String) :
    (upstreamName ns svc port).data =
      ns.data ++ '-' :: (svc.data ++ '-' :: port.data) := by
  simp [upstreamName, string_data_append]

/-- Truncated division of two positive renormalised percents misses 100 by at
most the rounding of the two remainders: the total is 99 or 100. -/
theorem renorm_sum_99_or_100 (a b : Int) (ha : 0 < a) (hb : 0 < b) :
    goDiv (100 * a) (a + b) + goDiv (100 * b) (a + b) = 99 ∨
    goDiv (100 * a) (a + b) + goDiv (100 * b) (a + b) = 100 := by
  have ht : (0 : Int) < a + b := by omega
  have hx : (0 : Int) ≤ 100 * a := by nlinarith
  have hy : (0 : Int) ≤ 100 * b := by nlinarith
  unfold goDiv
  rw [Int.tdiv_eq_ediv hx ht.le, Int.tdiv_eq_ediv hy ht.le]
  have h1 := Int.ediv_add_emod (100 * a) (a + b)
  have h2 := Int.ediv_add_emod (100 * b) (a + b)
  have hr1 : 0 ≤ (100 * a) % (a + b) := Int.emod_nonneg _ (by omega)
  have hr2 : 0 ≤ (100 * b) % (a + b) := Int.emod_nonneg _ (by omega)
  have hl1 : (100 * a) % (a + b) < a + b := Int.emod_lt_of_pos _ ht
  have hl2 : (100 * b) % (a + b) < a + b := Int.emod_lt_of_pos _ ht
  set q1 := (100 * a) / (a + b) with hq1
  set q2 := (100 * b) / (a + b) with hq2
  set r1 := (100 * a) % (a + b) with hr1d
  set r2 := (100 * b) % (a + b) with hr2d
  have key : (100 - (q1 + q2)) * (a + b) = r1 + r2 := by linear_combination - h1 - h2
  have hd0 : 0 ≤ 100 - (q1 + q2) := by
    by_contra hneg
    push_neg at hneg
    nlinarith
  have hd2 : 100 - (q1 + q2) < 2 := by
    by_contra hge
    push_neg at hge
    nlinarith
  omega

theorem selFold_eq_specFold (P : Location → Bool) (ls : List Location)
    (acc : Option Location × Nat)
    (hacc : acc = ((none : Option Location), 0) ∨ ∃ m, acc = (some m, m.path.length)) :
    (ls.foldl (selStep P) acc).1 = (ls.filter P).foldl specStep acc.1 := by
  induction ls generalizing acc with
  | nil => rfl
  | cons l t ih =>
    rw [List.foldl_cons, List.filter_cons]
    by_cases hP : P l
    · rw [if_pos hP, List.foldl_cons]
      rcases hacc with h0 | ⟨m, hm⟩
      · subst h0
        have hstep : selStep P ((none : Option Location), 0) l =
            (some l, l.path.length) := by simp [selStep, hP]
        rw [hstep, ih _ (Or.inr ⟨l, rfl⟩)]
        rfl
      · subst hm
        by_cases hle : m.path.length ≤ l.path.length
        · have hstep : selStep P ((some m : Option Location), m.path.length) l =
              (some l, l.path.length) := by simp [selStep, hP, hle]
          rw [hstep, ih _ (Or.inr ⟨l, rfl⟩)]
          simp [specStep, hle]
        · have hstep : selStep P ((some m : Option Location), m.path.length) l =
              (some m, m.path.length) := by simp [selStep, hP, hle]
          rw [hstep, ih _ (Or.inr ⟨m, rfl⟩)]
          simp [specStep, hle]
    · rw [if_neg hP]
      have hstep : selStep P acc l = acc := by simp [selStep, hP]
      rw [hstep, ih _ hacc]

theorem specStep_eq (acc : Option Location) (l b : Location)
    (h : specStep acc l = some b) : b = l ∨ acc = some b := by
  cases acc with
  | none =>
    simp [specStep] at h
    exact Or.inl h.symm
  | some a =>
    by_cases hle : a.path.length ≤ l.path.length
    · simp [specStep, hle] at h
      exact Or.inl h.symm
    · simp [specStep, hle] at h
      exact Or.inr (by rw [h])

theorem specStep_ge_l (acc : Option Location) (l : Location) :
    ∃ b, specStep acc l = some b ∧ l.path.length ≤ b.path.length := by
  cases acc with
  | none => exact ⟨l, by simp [specStep], le_refl _⟩
  | some a =>
    by_cases hle : a.path.length ≤ l.path.length
    · exact ⟨l, by simp [specStep, hle], le_refl _⟩
    · exact ⟨a, by simp [specStep, hle], by omega⟩

theorem specStep_ge_acc (a l : Location) :
    ∃ b, specStep (some a) l = some b ∧ a.path.length ≤ b.path.length := by
  by_cases hle : a.path.length ≤ l.path.length
  · exact ⟨l, by simp [specStep, hle], hle⟩
  · exact ⟨a, by simp [specStep, hle], le_refl _⟩

theorem specFold_sound (ms : List Location) (acc : Option Location) (m : Location)
    (h : ms.foldl specStep acc = some m) :
    (m ∈ ms ∨ acc = some m)
    ∧ (∀ l ∈ ms, l.path.length ≤ m.path.length)
    ∧ (∀ a, acc = some a → a.path.length ≤ m.path.length) := by
  induction ms generalizing acc with
  | nil =>
    refine ⟨Or.inr h, by simp, ?_⟩
    intro a ha
    rw [ha] at h
    simp only [List.foldl_nil, Option.some_inj] at h
    subst h
    exact le_refl _
  | cons l t ih =>
    rw [List.foldl_cons] at h
    obtain ⟨hmem, hmax, haccle⟩ := ih (specStep acc l) h
    have hl : l.path.length ≤ m.path.length := by
      obtain ⟨b, hb, hlb⟩ := specStep_ge_l acc l
      have := haccle b hb
      omega
    refine ⟨?_, ?_, ?_⟩
    · rcases hmem with hm | hm
      · exact Or.inl (List.mem_cons_of_mem _ hm)
      · rcases specStep_eq acc l m hm with h1 | h1
        · subst h1
          exact Or.inl (List.mem_cons_self _ _)
        · exact Or.inr h1
    · intro l' hl'
      rcases List.mem_cons.mp hl' with h1 | h1
      · subst h1
        exact hl
      · exact hmax l' h1
    · intro a ha
      subst ha
      obtain ⟨b, hb, hab⟩ := specStep_ge_acc a l
      have := haccle b hb
      omega

/-! ## Claim C4: longest-path location selection -/

/-- Claim C4, counterexample: with two equal-length paths "/aa" and "/ab" both
matching the request URI, the router selects the *later* location, not the
first-seen one — `string.len(path) >= target_location_priority` lets an
equal-length later match replace the incumbent. -/
theorem select_location_tie_not_first_seen :
    select_location (fun _ _ => true) "/x"
      [⟨"/aa", some "A"⟩, ⟨"/ab", some "B"⟩] = some ⟨"/ab", some "B"⟩
    ∧ (Location.mk "/aa" (some "A")).path.length =
        (Location.mk "/ab" (some "B")).path.length
    ∧ Location.mk "/ab" (some "B") ≠ Location.mk "/aa" (some "A") := by decide

/-- Claim C4 (amended): among the locations whose path regex-matches the
request URI the router selects one whose path has the greatest string length;
ties between equal-length matching paths break by *last-seen* in iteration
order (which the Lua `pairs` traversal leaves unspecified). -/
theorem select_location_last_longest (re_match : String → String → Bool)
    (request_uri : String) (locations : List Location) :
    select_location re_match request_uri locations =
      specLastLongestMatch re_match request_uri locations
    ∧ ∀ loc, select_location re_match request_uri locations = some loc →
        loc ∈ locations ∧ re_match request_uri loc.path = true ∧
        ∀ l ∈ locations, re_match request_uri l.path = true →
          l.path.length ≤ loc.path.length := by
  have heq : select_location re_match request_uri locations =
      specLastLongestMatch re_match request_uri locations :=
    selFold_eq_specFold (fun l => re_match request_uri l.path) locations
      ((none : Option Location), 0) (Or.inl rfl)
  refine ⟨heq, ?_⟩
  intro loc hsel
  rw [heq] at hsel
  obtain ⟨hmem, hmax, _⟩ := specFold_sound _ _ _ hsel
  rcases hmem with hm | hm
  · have hf := List.mem_filter.mp hm
    refine ⟨hf.1, hf.2, ?_⟩
    intro l hl hre
    exact hmax l (List.mem_filter.mpr ⟨hl, hre⟩)
  · simp at hm

theorem select_location_last_longest_witness :
    select_location (fun _ _ => true) "/x" [⟨"/a", none⟩, ⟨"/bb", none⟩] =
      specLastLongestMatch (fun _ _ => true) "/x" [⟨"/a", none⟩, ⟨"/bb", none⟩]
    ∧ (Location.mk "/a" none).path.length ≤ (Location.mk "/bb" none).path.length := by
  have h := select_location_last_longest (fun _ _ => true) "/x"
    [⟨"/a", none⟩, ⟨"/bb", none⟩]
  exact ⟨h.1, (h.2 ⟨"/bb", none⟩ (by decide)).2.2 ⟨"/a", none⟩ (by decide) (by decide)⟩

/-! ## Claim C3: load-balancing implementation precedence -/

/-- Claim C3, counterexample: an explicitly configured `load-balance` value
("ewma", a supported implementation) does NOT win — a backend whose
session-affinity name is "cookie" resolves to `sticky_balanced` regardless of
the explicit value, because `get_implementation` overwrites the explicit name
after reading it. -/
theorem get_implementation_explicit_value_overridden :
    ({ name := "b", loadBalance := some "ewma",
       sessionAffinityConfig := some { name := some "cookie" } } : Backend).loadBalance
        = some "ewma"
    ∧ "ewma" ∈ IMPLEMENTATIONS
    ∧ get_implementation
        { name := "b", loadBalance := some "ewma",
          sessionAffinityConfig := some { name := some "cookie" } } ≠ "ewma" := by
  decide

/-- Claim C3 (amended): the load-balancing implementation is derived with this
precedence — if the session-affinity name is "cookie", a sticky variant is
selected by mode ("persistent" gives sticky_persistent, anything else
sticky_balanced); otherwise, if upstream hash-by is configured, chashsubset is
chosen when the subset flag is set and chash otherwise; otherwise the
explicitly configured load-balance value is used, falling back to round_robin
when it names no known implementation. -/
theorem get_implementation_precedence (b : Backend) :
    get_implementation b =
      if sessionAffinityIsCookie b then
        if affinityModePersistent b then "sticky_persistent" else "sticky_balanced"
      else if hashByConfigured b then
        if hashBySubsetTruthy b then "chashsubset" else "chash"
      else if IMPLEMENTATIONS.contains (b.loadBalance.getD DEFAULT_LB_ALG) then
        b.loadBalance.getD DEFAULT_LB_ALG
      else DEFAULT_LB_ALG := by
  unfold get_implementation
  rcases h1 : sessionAffinityIsCookie b <;> rcases h2 : hashByConfigured b <;>
    rcases h3 : affinityModePersistent b <;> rcases h4 : hashBySubsetTruthy b <;>
      simp [h1, h2, h3, h4] <;> decide

/-! ## Claim C9: the divisors of `parseServiceWeight` -/

/-- Claim C9: the annotation "a: -100" parses entry-wise, yet the single-entry
divisor `100+w` is zero there, so `100 * weight / (100 + weight)` divides by
zero at runtime (a Go panic) instead of returning a configuration or an
invalid-annotation error. -/
theorem parseWeights_zero_divisor :
    parseWeights "a: -100" = some [("a", -100)]
    ∧ weightDivisors [("a", -100)] = [0] := by decide

/-! ## Claim C6: the single-entry service-weight configuration -/

/-- Claim C6, counterexample: for the single-entry annotation "a: 100" the
parsed configuration assigns percent `100·100/(100+100) = 50` to the parsed
service "a" itself — every key of the configuration map is "a", so no
colleague service receives the percent (the single-entry branch does not
consult the map-iteration order, here the identity enumeration). -/
theorem parseServiceWeight_single_entry_keyed_by_parsed_service :
    parseServiceWeight (fun l => l) "a: 100" = .ok (some ⟨true, [("a", 50)]⟩)
    ∧ (([(("a" : String), (50 : Int))].all fun kv => kv.1 == "a") = true) := by
  decide

/-- Claim C6 (amended): when a service-weight annotation parses to exactly one
entry with weight w, the parsed configuration — under every map-iteration
order — assigns the parsed service itself the percent `100·w/(100+w)` (the
colleague service gets no explicit entry). -/
theorem parseServiceWeight_single_entry
    (mapRange : List (String × Int) → List (String × Int)) (s name : String)
    (w : Int) (hs : s.length ≠ 0) (hp : parseWeights s = some [(name, w)]) :
    parseServiceWeight mapRange s = .ok (some
      { serviceWeightEnabled := true,
        serviceWeightCfgMap := [(name, goDiv (100 * w) (100 + w))] }) := by
  unfold parseServiceWeight
  rw [if_neg hs, hp]
  simp

theorem parseServiceWeight_single_entry_witness :
    parseServiceWeight (fun l => l) "a: 20" = .ok (some ⟨true, [("a", 16)]⟩) := by
  have h := parseServiceWeight_single_entry (fun l => l) "a: 20" "a" 20
    (by decide) (by decide)
  exact h.trans (by decide)

/-! ## Claim C5: renormalisation of two or more service-weight entries -/

/-- Claim C5, counterexample: the annotation "a: 1, b: 2" parses to exactly
two entries — so every map enumeration keeps both, here witnessed by the
identity enumeration — and the renormalised integer percents are 33 and 66,
summing to 99, not exactly 100. -/
theorem parseServiceWeight_sum_not_100 :
    parseServiceWeight (fun l => l) "a: 1, b: 2" =
      .ok (some ⟨true, [("a", 33), ("b", 66)]⟩)
    ∧ sumPercents ⟨true, [("a", 33), ("b", 66)]⟩ ≠ 100 := by decide

/-- Claim C5 (amended): for a service-weight annotation parsing to two or more
entries, the entries kept are the first two of Go's randomized map iteration —
an arbitrary pair of the parsed entries (with exactly two entries, both of
them): for every enumeration that is a permutation of the parsed map and
begins with entries x and y, the configuration maps x and y to
`100·wᵢ/(w₁+w₂)` under truncated integer division, both kept entries are
parsed entries, and for positive weights the resulting percents sum to 99 or
100. -/
theorem parseServiceWeight_pair_renormalised
    (mapRange : List (String × Int) → List (String × Int)) (s : String)
    (x y : String × Int) (rest weights : List (String × Int))
    (hs : s.length ≠ 0)
    (hp : parseWeights s = some weights)
    (hlen : 2 ≤ weights.length)
    (hpm : (mapRange weights).Perm weights)
    (hit : mapRange weights = x :: y :: rest)
    (hx : 0 < x.2) (hy : 0 < y.2) :
    parseServiceWeight mapRange s = .ok (some
      { serviceWeightEnabled := true,
        serviceWeightCfgMap :=
          [(x.1, goDiv (100 * x.2) (x.2 + y.2)),
           (y.1, goDiv (100 * y.2) (x.2 + y.2))] })
    ∧ x ∈ weights ∧ y ∈ weights
    ∧ (sumPercents
        { serviceWeightEnabled := true,
          serviceWeightCfgMap :=
            [(x.1, goDiv (100 * x.2) (x.2 + y.2)),
             (y.1, goDiv (100 * y.2) (x.2 + y.2))] } = 99 ∨
       sumPercents
        { serviceWeightEnabled := true,
          serviceWeightCfgMap :=
            [(x.1, goDiv (100 * x.2) (x.2 + y.2)),
             (y.1, goDiv (100 * y.2) (x.2 + y.2))] } = 100) := by
  have h0 : ¬(weights.length = 0) := by omega
  have h1 : ¬(weights.length = 1) := by omega
  refine ⟨?_, ?_, ?_, ?_⟩
  · unfold parseServiceWeight
    rw [if_neg hs, hp]
    simp [h0, h1, hit, List.take]
  · refine hpm.subset ?_
    rw [hit]
    exact List.mem_cons_self _ _
  · refine hpm.subset ?_
    rw [hit]
    exact List.mem_cons_of_mem _ (List.mem_cons_self _ _)
  · have h := renorm_sum_99_or_100 x.2 y.2 hx hy
    simp only [sumPercents, List.map_cons, List.map_nil, List.sum_cons, List.sum_nil]
    omega

theorem parseServiceWeight_pair_renormalised_witness :
    parseServiceWeight (fun l => l) "a: 1, b: 1" =
      .ok (some ⟨true, [("a", 50), ("b", 50)]⟩) := by
  have h := parseServiceWeight_pair_renormalised (fun l => l) "a: 1, b: 1"
    ("a", 1) ("b", 1) [] [("a", 1), ("b", 1)] (by decide) (by decide) (by decide)
    (List.Perm.refl _) rfl (by decide) (by decide)
  exact h.1.trans (by decide)

/-! ## Claim C10: the upstream-name round trip -/

/-- Claim C10, counterexample: for namespace "a-b", service "c" and port "80",
`splitUpstreamName (upstreamName "a-b" "c" "80") "a-b"` returns ("", "80"),
not ("c", "80") — `strings.TrimLeft` strips the character cutset
\x7ba, -, b\x7d, eating through "a-b-c" past the separators. -/
theorem splitUpstreamName_roundtrip_counterexample :
    splitUpstreamName (upstreamName "a-b" "c" "80") "a-b" = ("", "80")
    ∧ (("" : String), ("80" : String)) ≠ ("c", "80") := by decide

/-- Claim C10 (amended): splitting the canonical upstream name recovers the
service and port, provided the namespace and the port string contain no "-"
character (so the cutset-trim of `strings.TrimLeft` stops exactly at the
first separator). -/
theorem splitUpstreamName_roundtrip (ns svc port : String)
    (hns : '-' ∉ ns.data) (hport : '-' ∉ port.data) :
    splitUpstreamName (upstreamName ns svc port) ns = (svc, port) := by
  have htrim : goTrimLeftCutset (upstreamName ns svc port) ns =
      ⟨'-' :: (svc.data ++ '-' :: port.data)⟩ := by
    unfold goTrimLeftCutset
    rw [upstreamName_data]
    rw [List.dropWhile_append_of_pos (by intro a ha; exact decide_eq_true ha)]
    simp [List.dropWhile_cons, hns]
  have hidx : lastIdxOf '-' ('-' :: (svc.data ++ '-' :: port.data)) =
      some (svc.data.length + 1) := by
    have h := lastIdxOf_append_cons (c := '-') ('-' :: svc.data) hport
    simpa using h
  unfold splitUpstreamName
  rw [htrim]
  show (match lastIdxOf '-' ('-' :: (svc.data ++ '-' :: port.data)) with
    | none => (("" : String), ("" : String))
    | some idx =>
      ((⟨(('-' :: (svc.data ++ '-' :: port.data)).drop 1).take (idx - 1)⟩ : String),
       (⟨('-' :: (svc.data ++ '-' :: port.data)).drop (idx + 1)⟩ : String))) = (svc, port)
  rw [hidx]
  have htake : ((('-' :: (svc.data ++ '-' :: port.data)).drop 1).take
      (svc.data.length + 1 - 1)) = svc.data := by
    simp [List.take_left' rfl]
  have hdrop : (('-' :: (svc.data ++ '-' :: port.data)).drop
      (svc.data.length + 1 + 1)) = port.data := by
    show (('-' :: (svc.data ++ '-' :: port.data)).drop (svc.data.length + 2)) = port.data
    have hsplit : svc.data ++ '-' :: port.data = (svc.data ++ ['-']) ++ port.data := by
      simp
    rw [List.drop_succ_cons, hsplit, List.drop_left' (by simp)]
  simp only [htake, hdrop]

theorem splitUpstreamName_roundtrip_witness :
    splitUpstreamName (upstreamName "default" "my-svc" "8080") "default" =
      ("my-svc", "8080") :=
  splitUpstreamName_roundtrip "default" "my-svc" "8080" (by decide) (by decide)

/-! ## Claim C2: the sticky release cookie -/

/-- Claim C2, counterexample: a sticky cookie whose value ("bogus") names
neither pool is not ignored with selection proceeding — the selector returns
no decision at all, whereas with the cookie absent the same configuration
(weight 100 for "alt") proceeds to weight evaluation and selects "alt". -/
theorem release_sticky_invalid_cookie_no_decision :
    route_to_alternative_release_balancer (fun _ _ => false) (fun _ => "c0") 50
      stickyRegistryFx ⟨[("cookie_c0", "bogus")]⟩ stickyBalancerFx "cur" = none
    ∧ route_to_alternative_release_balancer (fun _ _ => false) (fun _ => "c0") 50
      stickyRegistryFx ⟨[]⟩ stickyBalancerFx "cur" = some "alt" := by decide

/-- Claim C2 (amended): when the request carries the sticky release cookie
(named by the MD5 hex digest of the policy's host_path) with a value equal to
one of the two pool names, the selector routes to that pool regardless of the
weight draw, provided that pool's balancer is present in the registry; when
the value names neither pool, the selector yields no decision (`nil, nil`) —
match and weight evaluation are skipped. -/
theorem release_sticky_cookie_routing (re_match : String → String → Bool)
    (md5 : String → String) (rand : Int) (balancers : Balancers) (req : Request)
    (balancer : Balancer) (current alternative v hp : String)
    (alts : List String) (tsp : TrafficShapingPolicy)
    (hb : balancer.alternative_backends = some alts)
    (hh : alts.head? = some alternative)
    (ht : balancer.traffic_shaping_policy = some tsp)
    (hhp : tsp.hostPath = some hp)
    (hcv : req.cookieGet (md5 hp) = some v) :
    (v = current → (lookupK balancers current).isSome = true →
      route_to_alternative_release_balancer re_match md5 rand balancers req
        balancer current = some current)
    ∧ (v = alternative → v ≠ current →
        (lookupK balancers alternative).isSome = true →
      route_to_alternative_release_balancer re_match md5 rand balancers req
        balancer current = some alternative)
    ∧ (v ≠ current → v ≠ alternative →
      route_to_alternative_release_balancer re_match md5 rand balancers req
        balancer current = none) := by
  have hsc : stickyCookieValue md5 req tsp = some v := by
    simp [stickyCookieValue, hhp, hcv]
  refine ⟨?_, ?_, ?_⟩
  · intro hv hlk
    subst hv
    simp only [route_to_alternative_release_balancer, hb, hh, ht, hsc]
    simp [shuffle_alternative_release_balancer, hlk]
  · intro hv hvc hlk
    subst hv
    simp only [route_to_alternative_release_balancer, hb, hh, ht, hsc]
    simp [shuffle_alternative_release_balancer, hvc, hlk]
  · intro hvc hva
    simp only [route_to_alternative_release_balancer, hb, hh, ht, hsc]
    simp [hvc, hva]

theorem release_sticky_cookie_routing_witness :
    route_to_alternative_release_balancer (fun _ _ => false) (fun _ => "c0") 7
      stickyRegistryFx ⟨[("cookie_c0", "alt")]⟩ stickyBalancerFx "cur" =
      some "alt" := by
  have h := release_sticky_cookie_routing (fun _ _ => false) (fun _ => "c0") 7
    stickyRegistryFx ⟨[("cookie_c0", "alt")]⟩ stickyBalancerFx "cur" "alt" "alt"
    "release.example/" ["alt"] stickyPolicyFx (by decide) (by decide) (by decide)
    (by decide) (by decide)
  exact h.2.1 rfl (by decide) (by decide)

/-! ## Claim C1: service-match evaluation -/

/-- Claim C1, counterexample: the alternative sibling "alt" carries an exact
header rule that the request satisfies, yet with weight enabled (percent 0 for
"alt") the selector routes to "cur" — a successful match does not choose the
matched sibling; it falls through to weight evaluation, whose weight-0 outcome
selects the opposite sibling. -/
theorem release_match_success_not_chosen :
    matchSuccess (fun _ _ => false) ⟨[("http_Foo", "bar")]⟩
      ⟨"header", "exact", "Foo", "bar"⟩ = true
    ∧ route_to_alternative_release_balancer (fun _ _ => false) (fun _ => "d0") 50
        matchRegistryFx ⟨[("http_Foo", "bar")]⟩ matchBalancerFx "cur" = some "cur"
    ∧ (some "cur" : Option String) ≠ some "alt" := by decide

/-- Claim C1 (amended): at the match-evaluation step the request value is
extracted by the rule's ticket (missing value gives the empty string) and
evaluated by the rule's pattern (exact or regex); a failed match routes to the
opposite sibling; with weight disabled a successful match chooses the sibling
the rule is attached to, and with weight enabled a successful match falls
through to weight evaluation. -/
theorem release_match_routing (re_match : String → String → Bool)
    (md5 : String → String) (rand : Int) (balancers : Balancers) (req : Request)
    (balancer : Balancer) (current alternative : String)
    (alts : List String) (tsp : TrafficShapingPolicy)
    (hb : balancer.alternative_backends = some alts)
    (hh : alts.head? = some alternative)
    (ht : balancer.traffic_shaping_policy = some tsp)
    (hck : stickyCookieValue md5 req tsp = none) :
    (∀ mc, altMatchCfg tsp alternative = some mc →
      ((matchSuccess re_match req mc = false →
        route_to_alternative_release_balancer re_match md5 rand balancers req
          balancer current =
          shuffle_alternative_release_balancer balancers current alternative)
      ∧ (matchSuccess re_match req mc = true → weightEnabledOf tsp = false →
        route_to_alternative_release_balancer re_match md5 rand balancers req
          balancer current =
          shuffle_alternative_release_balancer balancers alternative current)
      ∧ (matchSuccess re_match req mc = true → weightEnabledOf tsp = true →
        route_to_alternative_release_balancer re_match md5 rand balancers req
          balancer current =
          weightEval balancers rand true (weightPercentOf tsp alternative current)
            current alternative)))
    ∧ (∀ mc, altMatchCfg tsp alternative = none →
        curMatchCfg tsp alternative current = some mc →
      ((matchSuccess re_match req mc = false →
        route_to_alternative_release_balancer re_match md5 rand balancers req
          balancer current =
          shuffle_alternative_release_balancer balancers alternative current)
      ∧ (matchSuccess re_match req mc = true → weightEnabledOf tsp = false →
        route_to_alternative_release_balancer re_match md5 rand balancers req
          balancer current =
          shuffle_alternative_release_balancer balancers current alternative)
      ∧ (matchSuccess re_match req mc = true → weightEnabledOf tsp = true →
        route_to_alternative_release_balancer re_match md5 rand balancers req
          balancer current =
          weightEval balancers rand true (weightPercentOf tsp alternative current)
            current alternative)))
    ∧ (∀ mc : MatchRule, mc.ticket = "header" →
        req.var ("http_" ++ replace_special_char mc.key) = none →
        extractRequestValue req mc = "")
    ∧ (∀ mc : MatchRule, mc.pattern = "exact" →
        (matchSuccess re_match req mc = true ↔
          extractRequestValue req mc = mc.value))
    ∧ (∀ mc : MatchRule, mc.pattern = "regex" →
        matchSuccess re_match req mc =
          re_match (extractRequestValue req mc) mc.value) := by
  refine ⟨?_, ?_, ?_, ?_, ?_⟩
  · intro mc hmc
    have hme : matchEnabledOf tsp = true := by
      unfold altMatchCfg at hmc
      unfold matchEnabledOf
      cases h : tsp.serviceMatch with
      | none => rw [h] at hmc; cases hmc
      | some sm => simp [h]
    refine ⟨?_, ?_, ?_⟩
    · intro hms
      simp only [route_to_alternative_release_balancer, hb, hh, ht, hck, hme,
        hmc, if_true, hms]
      try simp
    · intro hms hwe
      simp only [route_to_alternative_release_balancer, hb, hh, ht, hck, hme,
        hmc, if_true, hms, hwe]
      try simp
    · intro hms hwe
      simp only [route_to_alternative_release_balancer, hb, hh, ht, hck, hme,
        hmc, if_true, hms, hwe]
      try simp
  · intro mc hac hmc
    have hme : matchEnabledOf tsp = true := by
      unfold curMatchCfg at hmc
      unfold matchEnabledOf
      cases h : tsp.serviceMatch with
      | none => rw [h] at hmc; cases hmc
      | some sm => simp [h]
    refine ⟨?_, ?_, ?_⟩
    · intro hms
      simp only [route_to_alternative_release_balancer, hb, hh, ht, hck, hme,
        hac, hmc, if_true, hms]
      try simp
    · intro hms hwe
      simp only [route_to_alternative_release_balancer, hb, hh, ht, hck, hme,
        hac, hmc, if_true, hms, hwe]
      try simp
    · intro hms hwe
      simp only [route_to_alternative_release_balancer, hb, hh, ht, hck, hme,
        hac, hmc, if_true, hms, hwe]
      try simp
  · intro mc hticket hvar
    simp [extractRequestValue, hticket, hvar]
  · intro mc hpat
    simp [matchSuccess, hpat]
  · intro mc hpat
    have hne : ¬ (mc.pattern = "exact") := by
      rw [hpat]; decide
    simp [matchSuccess, hpat, hne]

theorem release_match_routing_witness :
    route_to_alternative_release_balancer (fun _ _ => false) (fun _ => "d0") 50
      matchRegistryFx ⟨[("http_Foo", "bar")]⟩ matchBalancerFx "cur" =
      weightEval matchRegistryFx 50 true 0 "cur" "alt" := by
  have h := release_match_routing (fun _ _ => false) (fun _ => "d0") 50
    matchRegistryFx ⟨[("http_Foo", "bar")]⟩ matchBalancerFx "cur" "alt" ["alt"]
    matchPolicyFx (by decide) (by decide) (by decide) (by decide)
  have h2 := (h.1 ⟨"header", "exact", "Foo", "bar"⟩ (by decide)).2.2
    (by decide) (by decide)
  exact h2.trans (by decide)

/-! ## Claim C7: the registry holds only backends with endpoints -/

theorem sync_backends_step_snd (dns : String → List String)
    (acc : WorkerState × List String) (b : Backend) :
    (sync_backends_step dns acc b).2 =
      if !b.endpoints.isEmpty then b.name :: acc.2 else acc.2 := rfl

theorem keep_sound (dns : String → List String) (new_backends : List Backend)
    (acc : WorkerState × List String) (n : String)
    (h : n ∈ (new_backends.foldl (sync_backends_step dns) acc).2) :
    n ∈ acc.2 ∨ ∃ b ∈ new_backends, b.name = n ∧ b.endpoints ≠ [] := by
  induction new_backends generalizing acc with
  | nil => exact Or.inl h
  | cons b t ih =>
    rw [List.foldl_cons] at h
    rcases ih (sync_backends_step dns acc b) h with hk | ⟨b', hb', hn, hne⟩
    · rw [sync_backends_step_snd] at hk
      by_cases he : b.endpoints.isEmpty
      · simp [he] at hk
        exact Or.inl hk
      · simp [he] at hk
        rcases hk with h1 | h1
        · exact Or.inr ⟨b, List.mem_cons_self _ _, h1.symm,
            List.isEmpty_eq_false.mp (by simpa using he)⟩
        · exact Or.inl h1
    · exact Or.inr ⟨b', List.mem_cons_of_mem _ hb', hn, hne⟩

/-- Claim C7: every balancer present in the registry corresponds to a backend
whose endpoint list is non-empty — syncing a backend with zero endpoints
evicts its balancer, and after a full reconciliation every remaining balancer
name appears in the decoded backend table with a non-empty endpoint list. -/
theorem balancer_registry_nonempty (dns : String → List String)
    (balancers : Balancers) (backend : Backend)
    (now raw : Int) (st : WorkerState) (new_backends : List Backend)
    (hempty : backend.endpoints = [])
    (hguard : ¬(now - st.backends_last_synced_at < BACKENDS_FORCE_SYNC_INTERVAL
        ∧ raw ≤ st.backends_last_synced_at)) :
    lookupK (sync_backend dns balancers backend) backend.name = none
    ∧ ∀ p ∈ (sync_backends dns now raw (.ok new_backends) st).balancers,
        ∃ b ∈ new_backends, b.name = p.1 ∧ b.endpoints ≠ [] := by
  constructor
  · unfold sync_backend
    rw [if_pos (by simp [hempty])]
    exact lookupK_eraseK balancers backend.name
  · intro p hp
    unfold sync_backends at hp
    rw [if_neg hguard] at hp
    have hf := List.mem_filter.mp hp
    have hmem : p.1 ∈ (new_backends.foldl (sync_backends_step dns) (st, [])).2 :=
      List.elem_iff.mp hf.2
    rcases keep_sound dns new_backends (st, []) p.1 hmem with h0 | hex
    · cases h0
    · exact hex

theorem balancer_registry_nonempty_witness :
    lookupK (sync_backend (fun _ => []) [("b", ⟨"round_robin", { name := "b" }⟩)]
      { name := "b" }) "b" = none := by
  have h := balancer_registry_nonempty (fun _ => [])
    [("b", ⟨"round_robin", { name := "b" }⟩)] { name := "b" } 100 1
    { balancers := [] } [] rfl (by decide)
  exact h.1

/-! ## Claim C8: dropped versus kept worker state -/

/-- Claim C8: when the publisher returns no data, the worker drops the
corresponding state — the balancers with the alternative-backend links (the
external-name table stays), or all servers; when the returned data fails to
JSON-decode, the worker keeps its previous snapshot unchanged. -/
theorem sync_drop_and_keep (dns : String → List String) (now raw : Int)
    (st : WorkerState) (servers : List (String × ServerConf))
    (hguard : ¬(now - st.backends_last_synced_at < BACKENDS_FORCE_SYNC_INTERVAL
        ∧ raw ≤ st.backends_last_synced_at)) :
    (sync_backends dns now raw .noData st).balancers = []
    ∧ (sync_backends dns now raw .noData st).alternative_backends = []
    ∧ (sync_backends dns now raw .noData st).backends_with_external_name
        = st.backends_with_external_name
    ∧ sync_backends dns now raw .decodeError st = st
    ∧ sync_servers .noData servers = []
    ∧ sync_servers .decodeError servers = servers := by
  refine ⟨?_, ?_, ?_, ?_, rfl, rfl⟩ <;> simp [sync_backends, hguard]

theorem sync_drop_and_keep_witness :
    (sync_backends (fun _ => []) 100 1 .noData
      { balancers := [("x", ⟨"round_robin", { name := "x" }⟩)],
        backends_last_synced_at := 0 }).balancers = []
    ∧ sync_servers .decodeError [("h", ⟨"h", none, []⟩)] = [("h", ⟨"h", none, []⟩)] := by
  have h := sync_drop_and_keep (fun _ => []) 100 1
    { balancers := [("x", ⟨"round_robin", { name := "x" }⟩)],
      backends_last_synced_at := 0 }
    [("h", ⟨"h", none, []⟩)] (by decide)
  exact ⟨h.1, h.2.2.2.2.2⟩

end IngressNginx
